import Mathlib

/-!
Verification of `src/advanced-vector/vector.h` (classes `RawMemory<T>` and
`Vector<T>`) against its natural-language specification.

The embedding models the storage of a `Vector<T>` as a list of slots, one per
allocated element-sized cell: `some a` is a slot holding a live (constructed)
object with value `a`, `none` is a raw (uninitialized or destroyed) slot.  The
length of the slot list is the capacity (`RawMemory` always allocates exactly
the requested number of cells).  Machine addresses are replaced by slot
indices; `std::destroy_n`, placement `new`, assignment loops, `std::move` and
`std::move_backward` over ranges become bulk slot updates (`writeSeg`).  A
`RawMemory` by itself is modelled by its pointer identity (a block id, `none`
for `nullptr`) and its stored capacity, which is what the move operations of
the C++ class manipulate.
-/

namespace AdvVec

/-- Model of `RawMemory<T>`'s fields: `buffer_` (pointer, `none` = `nullptr`,
`some id` = identity of an allocated block) and `capacity_`. -/
structure RawMemory where
  buffer : Option Nat
  capacity : Nat
deriving DecidableEq

/-- `RawMemory(RawMemory&& other)`: the body is `buffer_ = std::move(other.buffer_);
capacity_ = std::move(other.capacity_);`.  `std::move` on a raw pointer / `size_t`
member is a plain copy, so the constructed object receives `other`'s fields and
`other` is left exactly as it was.  Returns (constructed object, source after). -/
def RawMemory.moveCtor (other : RawMemory) : RawMemory × RawMemory :=
  (⟨other.buffer, other.capacity⟩, other)

/-- `operator=(RawMemory&& rhs)`: `buffer_ = std::move(rhs.buffer_); capacity_ =
std::move(rhs.capacity_);` — again plain copies of the fields; the destination's
old block pointer is overwritten and `rhs` is left unchanged.
Returns (destination after, source after). -/
def RawMemory.moveAssign (_this rhs : RawMemory) : RawMemory × RawMemory :=
  (⟨rhs.buffer, rhs.capacity⟩, rhs)

/-- Write slots `[start, start + n)` of a list, slot `k + i` of the tail being
indexed `k + i` overall; slot `j` in range receives `f j`.  This is the
denotation of the pointer loops in the source (`std::destroy_n`, element
assignment loops, `std::move` / `std::move_backward` over ranges, placement
`new` at a single cell) — each of them writes a contiguous index range, and
every value read by such a loop is a pre-loop value (the loops in the source
traverse in the direction that avoids reading an already-overwritten cell). -/
def writeSegFrom (k start n : Nat) (f : Nat → Option α) : List (Option α) → List (Option α)
  | [] => []
  | s :: rest =>
      (if start ≤ k ∧ k < start + n then f k else s) :: writeSegFrom (k + 1) start n f rest

/-- Top-level slot-range write: `writeSeg start n f l` updates slots
`[start, start + n)` of `l`, slot `j` becoming `f j`. -/
def writeSeg (start n : Nat) (f : Nat → Option α) (l : List (Option α)) : List (Option α) :=
  writeSegFrom 0 start n f l

/-- Model of `Vector<T>`: `data_` flattened to its slot contents (`slots`,
whose length is `data_.Capacity()`), plus `size_`. -/
structure Vec (α : Type) where
  slots : List (Option α)
  size : Nat
deriving DecidableEq

/-- `Capacity()`: the slot list has exactly `data_.Capacity()` entries. -/
def Vec.capacity (v : Vec α) : Nat := v.slots.length

/-- The default constructor `Vector() = default`: null buffer, size 0. -/
def Vec.empty (α : Type) : Vec α := ⟨[], 0⟩

/-- Observable content of logical cell `i`: the slot value, `none` when the
cell is out of range or holds no constructed object. -/
def Vec.elem (v : Vec α) (i : Nat) : Option α := v.slots.getD i none

/-- Container invariant: `size_ <= data_.Capacity()`, and exactly the slots
`[0, size_)` hold live objects. -/
def Vec.WF (v : Vec α) : Prop :=
  v.size ≤ v.capacity ∧ ∀ i, i < v.capacity → ((v.slots.getD i none).isSome ↔ i < v.size)

instance (v : Vec α) : Decidable v.WF := by
  unfold Vec.WF Vec.capacity; infer_instance

/-- `Reserve(new_capacity)`: early-return when `new_capacity <= Capacity()`;
otherwise allocate `RawMemory<T> new_data(new_capacity)` (fresh raw slots),
relocate the `size_` live elements into its front (`uninitialized_move_n` or
`uninitialized_copy_n` — value-wise the same transfer), `destroy_n` the old
elements and `Swap` buffers. -/
def Vec.Reserve (v : Vec α) (newCapacity : Nat) : Vec α :=
  if newCapacity ≤ v.capacity then v
  else ⟨v.slots.take v.size ++ List.replicate (newCapacity - v.size) none, v.size⟩

/-- `Resize(new_size)`: when shrinking, `std::destroy_n(data_.GetAddress() +
new_size - 1, size_ - new_size)` — note the `- 1`, destroying slots
`[new_size - 1, size_ - 1)` exactly as written in the source; when growing,
`Reserve(new_size)` then value-construct slots `[size_, new_size)`; finally
`size_ = new_size`. -/
def Vec.Resize [Inhabited α] (v : Vec α) (newSize : Nat) : Vec α :=
  if newSize < v.size then
    ⟨writeSeg (newSize - 1) (v.size - newSize) (fun _ => none) v.slots, newSize⟩
  else
    ⟨writeSeg v.size (newSize - v.size) (fun _ => some default)
      (v.Reserve newSize).slots, newSize⟩

/-- `EmplaceBack(args...)`, with the outcome of `T(std::forward<Args>(args)...)`
made explicit: `construct = some x` means the constructor produces `x`,
`construct = none` means it throws.  Mirrors the source order: on the growth
path the local `RawMemory new_data(size_ == 0 ? 1 : size_ * 2)` is allocated
first (not observable through the container), then `new (&new_data[size_])
T(...)` runs — if it throws, nothing after it (relocation, `destroy_n`, `Swap`,
`++size_`) executes and the container is returned as it stands; on the
in-place path `new (&data_[size_]) T(...)` writes slot `size_`.  Returns the
container state after the call and whether the call completed. -/
def Vec.EmplaceBackTry (v : Vec α) (construct : Option α) : Vec α × Bool :=
  if v.size = v.capacity then
    match construct with
    | none => (v, false)
    | some x =>
        (⟨v.slots.take v.size ++ [some x]
            ++ List.replicate ((if v.size = 0 then 1 else v.size * 2) - (v.size + 1)) none,
          v.size + 1⟩, true)
  else
    match construct with
    | none => (v, false)
    | some x => (⟨writeSeg v.size 1 (fun _ => some x) v.slots, v.size + 1⟩, true)

/-- `PushBack(value)`: forwards to `EmplaceBack` with a non-throwing
construction of `value`. -/
def Vec.PushBack (v : Vec α) (x : α) : Vec α := (v.EmplaceBackTry (some x)).1

/-- `PopBack()`: `std::destroy_at(end() - 1); --size_;`. -/
def Vec.PopBack (v : Vec α) : Vec α :=
  ⟨writeSeg (v.size - 1) 1 (fun _ => none) v.slots, v.size - 1⟩

/-- `Emplace(pos, args...)` with `pos` as the index `distance = pos - cbegin()`
and the constructed value `x`.  Three branches as in the source:
`pos == cend()` forwards to `EmplaceBack`; full capacity reallocates into
`new_data` (construct `x` at index `distance`, move/copy the prefix `[0,
distance)` to the front and the suffix `[distance, size_)` to `[distance + 1,
size_ + 1)`, destroy the old elements, swap, `++size_`); otherwise in place:
`T new_elem(...)`, placement-construct slot `size_` from `*(end() - 1)`,
`std::move_backward(position, end() - 1, end())` (right-to-left, so every cell
read is a pre-call value), then assign `new_elem` into slot `distance`. -/
def Vec.Emplace (v : Vec α) (pos : Nat) (x : α) : Vec α :=
  if pos = v.size then (v.EmplaceBackTry (some x)).1
  else if v.size = v.capacity then
    ⟨v.slots.take pos ++ [some x] ++ (v.slots.drop pos).take (v.size - pos)
        ++ List.replicate ((if v.size = 0 then 1 else v.size * 2) - (v.size + 1)) none,
      v.size + 1⟩
  else
    ⟨writeSeg pos 1 (fun _ => some x)
      (writeSeg (pos + 1) (v.size - 1 - pos)
        (fun j => (writeSeg v.size 1 (fun _ => v.slots.getD (v.size - 1) none) v.slots).getD
            (j - 1) none)
        (writeSeg v.size 1 (fun _ => v.slots.getD (v.size - 1) none) v.slots)),
      v.size + 1⟩

/-- `Erase(pos)` with `pos` as an index: `std::move(position + 1, end(),
position)` shifts the values of slots `[pos + 1, size_)` one cell left
(left-to-right, each cell read before being overwritten), then
`std::destroy_n(end() - 1, 1)` and `--size_`. -/
def Vec.Erase (v : Vec α) (pos : Nat) : Vec α :=
  ⟨writeSeg (v.size - 1) 1 (fun _ => none)
      (writeSeg pos (v.size - 1 - pos) (fun i => v.slots.getD (i + 1) none) v.slots),
    v.size - 1⟩

/-- `Insert(pos, value)`: forwards to `Emplace`. -/
def Vec.Insert (v : Vec α) (pos : Nat) (x : α) : Vec α := v.Emplace pos x

/-- `operator=(const Vector& rhs)` on distinct objects (`this != &rhs`), plus
the `same` flag for the self-assignment test `this != &rhs` in the source.
Branches as written: if `rhs.size_ > data_.Capacity()`, build `Vector
rhs_copy(rhs)` (capacity exactly `rhs.size_`, elements copy-constructed) and
`Swap` it in; else if `rhs.size_ < size_`, assign slots `[0, rhs.size_)` from
`rhs`, then `std::destroy_n(data_.GetAddress() + rhs.size_ - 1, size_ -
rhs.size_)` — again the `- 1` exactly as in the source — and adopt
`rhs.size_`; else assign slots `[0, size_)`, copy-construct slots `[size_,
rhs.size_)` from `rhs`, adopt `rhs.size_`. -/
def Vec.copyAssign (this rhs : Vec α) (same : Bool) : Vec α :=
  if same then this
  else if rhs.size > this.capacity then
    ⟨rhs.slots.take rhs.size, rhs.size⟩
  else if rhs.size < this.size then
    ⟨writeSeg (rhs.size - 1) (this.size - rhs.size) (fun _ => none)
        (writeSeg 0 rhs.size (fun i => rhs.slots.getD i none) this.slots),
      rhs.size⟩
  else
    ⟨writeSeg this.size (rhs.size - this.size) (fun i => rhs.slots.getD i none)
        (writeSeg 0 this.size (fun i => rhs.slots.getD i none) this.slots),
      rhs.size⟩

/-- `Swap(other)`: `data_.Swap(other.data_)` plus the manual exchange of the
two sizes.  Returns the pair (this after, other after). -/
def Vec.Swap (a b : Vec α) : Vec α × Vec α :=
  (⟨b.slots, b.size⟩, ⟨a.slots, a.size⟩)

/-- `operator=(Vector&& rhs)`: the body is `Swap(rhs); return *this;`. -/
def Vec.moveAssign (a b : Vec α) : Vec α × Vec α := Vec.Swap a b

/-- Folding `PushBack` over a list of values: a sequence of appends. -/
def Vec.pushBackAll (v : Vec α) (xs : List α) : Vec α := xs.foldl Vec.PushBack v

/-! ### Slot-access lemmas -/

theorem getD_none_of_le {l : List (Option α)} {i : Nat} (h : l.length ≤ i) :
    l.getD i none = none := by
  rw [List.getD_eq_getElem?_getD, List.getElem?_eq_none h]; rfl

theorem getD_append_left {l₁ l₂ : List (Option α)} {i : Nat} (h : i < l₁.length) :
    (l₁ ++ l₂).getD i none = l₁.getD i none := by
  rw [List.getD_eq_getElem?_getD, List.getD_eq_getElem?_getD, List.getElem?_append,
    if_pos h]

theorem getD_append_right {l₁ l₂ : List (Option α)} {i : Nat} (h : l₁.length ≤ i) :
    (l₁ ++ l₂).getD i none = l₂.getD (i - l₁.length) none := by
  rw [List.getD_eq_getElem?_getD, List.getD_eq_getElem?_getD,
    List.getElem?_append_right h]

theorem getD_take {l : List (Option α)} {n i : Nat} (h : i < n) :
    (l.take n).getD i none = l.getD i none := by
  rw [List.getD_eq_getElem?_getD, List.getD_eq_getElem?_getD, List.getElem?_take,
    if_pos h]

theorem getD_drop (l : List (Option α)) (n i : Nat) :
    (l.drop n).getD i none = l.getD (n + i) none := by
  rw [List.getD_eq_getElem?_getD, List.getD_eq_getElem?_getD, List.getElem?_drop]

theorem getD_replicate_none {n i : Nat} :
    (List.replicate n (none : Option α)).getD i none = none := by
  rw [List.getD_eq_getElem?_getD, List.getElem?_replicate]
  by_cases h : i < n <;> simp [h]

theorem length_writeSegFrom (s n : Nat) (f : Nat → Option α) (l : List (Option α)) :
    ∀ k, (writeSegFrom k s n f l).length = l.length := by
  induction l with
  | nil => intro k; rfl
  | cons a rest ih => intro k; simp [writeSegFrom, ih]

theorem getElem?_writeSegFrom (s n : Nat) (f : Nat → Option α) (l : List (Option α)) :
    ∀ k i, (writeSegFrom k s n f l)[i]? =
      (l[i]?).map (fun a => if s ≤ k + i ∧ k + i < s + n then f (k + i) else a) := by
  induction l with
  | nil => intro k i; simp [writeSegFrom]
  | cons a rest ih =>
      intro k i
      cases i with
      | zero => simp [writeSegFrom]
      | succ i =>
          have h := ih (k + 1) i
          simp only [writeSegFrom, List.getElem?_cons_succ]
          rw [h]
          have : k + 1 + i = k + (i + 1) := by omega
          rw [this]

theorem length_writeSeg (s n : Nat) (f : Nat → Option α) (l : List (Option α)) :
    (writeSeg s n f l).length = l.length :=
  length_writeSegFrom s n f l 0

theorem getD_writeSeg (s n : Nat) (f : Nat → Option α) (l : List (Option α)) (i : Nat) :
    (writeSeg s n f l).getD i none =
      if i < l.length then (if s ≤ i ∧ i < s + n then f i else l.getD i none)
      else none := by
  rw [List.getD_eq_getElem?_getD, writeSeg, getElem?_writeSegFrom]
  rcases Nat.lt_or_ge i l.length with h | h
  · rw [List.getElem?_eq_getElem h, if_pos h, List.getD_eq_getElem l none h]
    simp only [Nat.zero_add, Option.map_some', Option.getD_some]
  · rw [List.getElem?_eq_none h, if_neg (Nat.not_lt.mpr h)]; rfl

theorem elem_mk (l : List (Option α)) (s i : Nat) :
    (⟨l, s⟩ : Vec α).elem i = l.getD i none := rfl

theorem capacity_mk (l : List (Option α)) (s : Nat) :
    (⟨l, s⟩ : Vec α).capacity = l.length := rfl

theorem Vec.elem_none_of_ge {v : Vec α} (hwf : v.WF) {i : Nat} (h : v.size ≤ i) :
    v.elem i = none := by
  rcases Nat.lt_or_ge i v.capacity with hc | hc
  · have h2 : ¬(v.slots.getD i none).isSome := fun hs =>
      Nat.not_lt.mpr h ((hwf.2 i hc).mp hs)
    exact Option.not_isSome_iff_eq_none.mp h2
  · exact getD_none_of_le hc

/-! ### Characterization of the operations -/

theorem size_PushBack (v : Vec α) (x : α) : (v.PushBack x).size = v.size + 1 := by
  unfold Vec.PushBack Vec.EmplaceBackTry
  by_cases h : v.size = v.capacity <;> simp [h]

theorem capacity_PushBack_grow (v : Vec α) (x : α) (h : v.size = v.capacity) :
    (v.PushBack x).capacity = max 1 (2 * v.capacity) := by
  unfold Vec.PushBack Vec.EmplaceBackTry
  rw [if_pos h]
  have hlen : v.capacity = v.slots.length := rfl
  simp only [Vec.capacity, List.length_append, List.length_take, List.length_replicate,
    List.length_singleton]
  by_cases h0 : v.size = 0 <;> simp only [h0, if_true, if_false, reduceIte] <;> omega

theorem capacity_PushBack_stay (v : Vec α) (x : α) (h : ¬v.size = v.capacity) :
    (v.PushBack x).capacity = v.capacity := by
  unfold Vec.PushBack Vec.EmplaceBackTry
  rw [if_neg h]
  exact length_writeSeg _ _ _ _

theorem size_le_capacity_PushBack (v : Vec α) (x : α) (h : v.size ≤ v.capacity) :
    (v.PushBack x).size ≤ (v.PushBack x).capacity := by
  rw [size_PushBack]
  by_cases hg : v.size = v.capacity
  · rw [capacity_PushBack_grow v x hg, hg]; omega
  · rw [capacity_PushBack_stay v x hg]; omega

theorem elem_PushBack (v : Vec α) (x : α) (hwf : v.WF) (i : Nat) :
    (v.PushBack x).elem i =
      if i < v.size then v.elem i else if i = v.size then some x else none := by
  have hlen : v.slots.length = v.capacity := rfl
  have hnone : ∀ j, v.size ≤ j → v.slots.getD j none = none := fun j hj =>
    Vec.elem_none_of_ge hwf hj
  unfold Vec.PushBack Vec.EmplaceBackTry
  by_cases h : v.size = v.capacity
  · rw [if_pos h]
    simp only [Vec.elem]
    have htk : (v.slots.take v.size).length = v.size := by
      rw [List.length_take]; omega
    have htk1 : (v.slots.take v.size ++ [some x]).length = v.size + 1 := by
      rw [List.length_append, htk, List.length_singleton]
    rcases Nat.lt_trichotomy i v.size with hi | hi | hi
    · rw [getD_append_left (by omega), getD_append_left (by omega), getD_take hi,
        if_pos hi]
    · subst hi
      rw [getD_append_left (by omega), getD_append_right (by omega), htk,
        Nat.sub_self]
      simp
    · rw [getD_append_right (by omega), getD_replicate_none]
      split_ifs <;> first | rfl | omega
  · rw [if_neg h]
    have hsc : v.size < v.capacity := Nat.lt_of_le_of_ne hwf.1 h
    simp only [Vec.elem, getD_writeSeg]
    split_ifs <;>
      first
      | rfl
      | omega
      | (exact hnone _ (by omega))
      | (exact (hnone _ (by omega)).symm)

theorem size_Emplace (v : Vec α) (pos : Nat) (x : α) :
    (v.Emplace pos x).size = v.size + 1 := by
  unfold Vec.Emplace
  by_cases h1 : pos = v.size
  · rw [if_pos h1]; exact size_PushBack v x
  · rw [if_neg h1]; by_cases h2 : v.size = v.capacity <;> simp [h2]

theorem elem_Emplace (v : Vec α) (pos : Nat) (x : α) (hwf : v.WF) (hpos : pos ≤ v.size)
    (i : Nat) :
    (v.Emplace pos x).elem i =
      if i < pos then v.elem i
      else if i = pos then some x
      else if i ≤ v.size then v.elem (i - 1)
      else none := by
  have hlen : v.slots.length = v.capacity := rfl
  have hnone : ∀ j, v.size ≤ j → v.slots.getD j none = none := fun j hj =>
    Vec.elem_none_of_ge hwf hj
  unfold Vec.Emplace
  by_cases h1 : pos = v.size
  · rw [if_pos h1]
    have hp := elem_PushBack v x hwf i
    unfold Vec.PushBack at hp
    rw [hp]
    simp only [Vec.elem]
    split_ifs <;> first | rfl | omega
  · rw [if_neg h1]
    have hps : pos < v.size := Nat.lt_of_le_of_ne hpos h1
    by_cases h2 : v.size = v.capacity
    · rw [if_pos h2]
      simp only [Vec.elem]
      have htk : (v.slots.take pos).length = pos := by rw [List.length_take]; omega
      have hdt : ((v.slots.drop pos).take (v.size - pos)).length = v.size - pos := by
        rw [List.length_take, List.length_drop]; omega
      have htk1 : (v.slots.take pos ++ [some x]).length = pos + 1 := by
        rw [List.length_append, htk, List.length_singleton]
      have htk2 : ((v.slots.take pos ++ [some x]) ++
          (v.slots.drop pos).take (v.size - pos)).length = v.size + 1 := by
        rw [List.length_append, htk1, hdt]; omega
      rcases Nat.lt_trichotomy i pos with hi | hi | hi
      · rw [getD_append_left (by omega), getD_append_left (by omega),
          getD_append_left (by omega), getD_take hi]
        split_ifs <;> first | rfl | omega
      · subst hi
        rw [getD_append_left (by omega), getD_append_left (by omega),
          getD_append_right (by omega), htk, Nat.sub_self]
        simp only [List.getD_cons_zero]
        split_ifs <;> first | rfl | omega
      · rcases Nat.lt_or_ge i (v.size + 1) with hi2 | hi2
        · rw [getD_append_left (by omega), getD_append_right (by omega), htk1,
            getD_take (by omega), getD_drop]
          have h9 : pos + (i - (pos + 1)) = i - 1 := by omega
          rw [h9]
          split_ifs <;> first | rfl | omega
        · rw [getD_append_right (by omega), getD_replicate_none]
          split_ifs <;> first | rfl | omega
    · rw [if_neg h2]
      have hsc : v.size < v.capacity := Nat.lt_of_le_of_ne hwf.1 h2
      simp only [Vec.elem, getD_writeSeg, length_writeSeg]
      split_ifs <;>
        first
        | rfl
        | omega
        | (exact hnone _ (by omega))
        | (exact (hnone _ (by omega)).symm)
        | (rw [show i - 1 = v.size - 1 by omega])

theorem size_Erase (v : Vec α) (pos : Nat) : (v.Erase pos).size = v.size - 1 := rfl

theorem capacity_Erase (v : Vec α) (pos : Nat) : (v.Erase pos).capacity = v.capacity := by
  simp only [Vec.Erase, Vec.capacity, length_writeSeg]

theorem elem_Erase (v : Vec α) (pos : Nat) (hpos : pos < v.size) (i : Nat) :
    (v.Erase pos).elem i =
      if i < pos then v.elem i
      else if i + 1 < v.size then v.elem (i + 1)
      else if i + 1 = v.size then none
      else v.elem i := by
  unfold Vec.Erase
  simp only [Vec.elem, getD_writeSeg, length_writeSeg]
  split_ifs <;>
    first
    | rfl
    | omega
    | (exact (getD_none_of_le (by omega)).symm)
    | (exact getD_none_of_le (by omega))

theorem size_Reserve (v : Vec α) (k : Nat) : (v.Reserve k).size = v.size := by
  unfold Vec.Reserve
  by_cases h : k ≤ v.capacity <;> simp [h]

theorem capacity_Reserve_grow (v : Vec α) (k : Nat) (hsz : v.size ≤ v.capacity)
    (h : v.capacity < k) : (v.Reserve k).capacity = k := by
  have hlen : v.slots.length = v.capacity := rfl
  unfold Vec.Reserve
  rw [if_neg (by omega)]
  simp only [Vec.capacity, List.length_append, List.length_take, List.length_replicate]
  omega

theorem elem_Reserve_lt (v : Vec α) (k : Nat) (hsz : v.size ≤ v.capacity) (i : Nat)
    (hi : i < v.size) : (v.Reserve k).elem i = v.elem i := by
  have hlen : v.slots.length = v.capacity := rfl
  unfold Vec.Reserve
  by_cases h : k ≤ v.capacity
  · rw [if_pos h]
  · rw [if_neg h]
    simp only [Vec.elem]
    rw [getD_append_left (by rw [List.length_take]; omega), getD_take hi]

theorem pushBackAll_size_le (xs : List α) :
    ∀ v : Vec α, v.size ≤ v.capacity →
      (v.pushBackAll xs).size = v.size + xs.length ∧
      (v.pushBackAll xs).size ≤ (v.pushBackAll xs).capacity := by
  induction xs with
  | nil => exact fun v h => ⟨rfl, h⟩
  | cons x xs ih =>
      intro v h
      have h2 := size_le_capacity_PushBack v x h
      have h3 := ih (v.PushBack x) h2
      have hstep : v.pushBackAll (x :: xs) = (v.PushBack x).pushBackAll xs := rfl
      refine ⟨?_, by rw [hstep]; exact h3.2⟩
      rw [hstep, h3.1, size_PushBack, List.length_cons]
      omega

/-! ### The claims -/

/-- Claim C1 (code bug).  Spec intent: `Resize(newSize)` with `newSize < size`
destroys exactly the elements at positions `[newSize, size)`, leaves positions
`[0, newSize)` unchanged, and sets the size to `newSize`.  The code computes
the destroy range from `data_.GetAddress() + new_size - 1`, one slot early.
Evaluating the embedded `Resize` on the vector `[10, 20]` at `newSize = 1`:
the element at position 0 is destroyed (the claim says it stays `10`) and the
object at position 1 is left constructed (the claim says it is destroyed). -/
theorem resize_shrink_offbyone :
    (⟨[some 10, some 20], 2⟩ : Vec Nat).Resize 1 = ⟨[none, some 20], 1⟩
    ∧ ((⟨[some 10, some 20], 2⟩ : Vec Nat).Resize 1).elem 0 ≠ some 10 := by
  decide

/-- Claim C2 (code bug).  The move constructor and move assignment of
`RawMemory` write `buffer_ = std::move(other.buffer_); capacity_ =
std::move(rhs.capacity_);` — plain copies for a raw pointer and a `size_t` —
so the source keeps its block pointer and capacity instead of being left
`(nullptr, 0)`: after the move both objects own the same block (a double free
on destruction).  Evaluated at a source owning block 7 with capacity 3. -/
theorem rawmemory_move_retains_source :
    RawMemory.moveCtor ⟨some 7, 3⟩ = (⟨some 7, 3⟩, ⟨some 7, 3⟩)
    ∧ (RawMemory.moveCtor ⟨some 7, 3⟩).2 ≠ ⟨none, 0⟩
    ∧ RawMemory.moveAssign ⟨none, 0⟩ ⟨some 7, 3⟩ = (⟨some 7, 3⟩, ⟨some 7, 3⟩) := by
  decide

/-- Claim C3 (code bug).  Copy-assignment with the source strictly smaller and
fitting the target's capacity: the code assigns the prefix but then destroys
`std::destroy_n(data_.GetAddress() + rhs.size_ - 1, size_ - rhs.size_)` — one
slot early.  Evaluating the embedded assignment of source `[5]` into target
`[10, 20]`: position 0, just assigned `5`, is destroyed, and the old element
`20` at position 1 is left constructed beyond the new size, so the target does
not equal the source element-wise. -/
theorem copy_assign_shrink_offbyone :
    Vec.copyAssign (⟨[some 10, some 20], 2⟩ : Vec Nat) ⟨[some 5], 1⟩ false
      = ⟨[none, some 20], 1⟩
    ∧ (Vec.copyAssign (⟨[some 10, some 20], 2⟩ : Vec Nat) ⟨[some 5], 1⟩ false).elem 0
      ≠ some 5 := by
  decide

/-- Claim C4 (confirmed).  When an append needs to grow (`size_ ==
Capacity()`) and the construction of the new element throws, the container
is exactly as before the call: in the source the new element is constructed
into the freshly allocated `new_data` before any existing element is
relocated or destroyed, and in the embedding the throw (`construct = none`)
returns the original state untouched. -/
theorem emplaceBack_throw_leaves_state (v : Vec α) (h : v.size = v.capacity) :
    v.EmplaceBackTry none = (v, false) := by
  unfold Vec.EmplaceBackTry
  rw [if_pos h]

/-- Witness for C4 at a full one-element vector. -/
theorem emplaceBack_throw_leaves_state_witness :
    (⟨[some 1], 1⟩ : Vec Nat).EmplaceBackTry none = (⟨[some 1], 1⟩, false) :=
  emplaceBack_throw_leaves_state ⟨[some 1], 1⟩ (by decide)

/-- Claim C5 (confirmed).  Starting from a default-constructed vector, after a
sequence of `N` appends `Size()` is `N` and `Capacity() >= Size()`; and
whenever an append finds the capacity exhausted, the new capacity is
`max(1, 2 * currentCapacity)` (the source computes `size_ == 0 ? 1 : size_ * 2`,
which agrees because `size_ == Capacity()` on that path). -/
theorem append_sequence_spec (xs : List α) (w : Vec α) (y : α)
    (h : w.size = w.capacity) :
    ((Vec.empty α).pushBackAll xs).size = xs.length
    ∧ ((Vec.empty α).pushBackAll xs).size ≤ ((Vec.empty α).pushBackAll xs).capacity
    ∧ (w.PushBack y).capacity = max 1 (2 * w.capacity) := by
  have h0 := pushBackAll_size_le xs (Vec.empty α) (Nat.le_refl 0)
  exact ⟨by rw [h0.1]; exact Nat.zero_add _, h0.2, capacity_PushBack_grow w y h⟩

/-- Witness for C5: three appends onto an empty vector, and one growing append
on a full two-element vector. -/
theorem append_sequence_spec_witness :
    ((Vec.empty Nat).pushBackAll [4, 5, 6]).size = 3
    ∧ ((Vec.empty Nat).pushBackAll [4, 5, 6]).size
        ≤ ((Vec.empty Nat).pushBackAll [4, 5, 6]).capacity
    ∧ ((⟨[some 1, some 2], 2⟩ : Vec Nat).PushBack 9).capacity
        = max 1 (2 * (⟨[some 1, some 2], 2⟩ : Vec Nat).capacity) :=
  append_sequence_spec [4, 5, 6] ⟨[some 1, some 2], 2⟩ 9 (by decide)

/-- Claim C6 (confirmed).  Inserting `x` at a valid position `pos` and then
erasing at `pos` restores every element of the original vector (all positions,
hence in particular the original order of all other elements) and returns the
size to its pre-insert value. -/
theorem insert_then_erase_id (v : Vec α) (pos : Nat) (x : α) (hwf : v.WF)
    (hpos : pos ≤ v.size) :
    ((v.Emplace pos x).Erase pos).size = v.size
    ∧ ∀ i, ((v.Emplace pos x).Erase pos).elem i = v.elem i := by
  have hsz := size_Emplace v pos x
  constructor
  · rw [size_Erase, hsz]; omega
  · intro i
    have he := elem_Erase (v.Emplace pos x) pos (by omega) i
    rw [he, hsz, elem_Emplace v pos x hwf hpos i, elem_Emplace v pos x hwf hpos (i + 1)]
    split_ifs <;>
      first
      | rfl
      | omega
      | (exact (Vec.elem_none_of_ge hwf (by omega)).symm)

/-- Witness for C6: insert 99 at position 1 of `[1, 2, 3]`, erase it again,
check the size and the element at position 1. -/
theorem insert_then_erase_id_witness :
    (((⟨[some 1, some 2, some 3], 3⟩ : Vec Nat).Emplace 1 99).Erase 1).size
      = (⟨[some 1, some 2, some 3], 3⟩ : Vec Nat).size
    ∧ (((⟨[some 1, some 2, some 3], 3⟩ : Vec Nat).Emplace 1 99).Erase 1).elem 1
      = (⟨[some 1, some 2, some 3], 3⟩ : Vec Nat).elem 1 :=
  ⟨(insert_then_erase_id ⟨[some 1, some 2, some 3], 3⟩ 1 99 (by decide) (by decide)).1,
   (insert_then_erase_id ⟨[some 1, some 2, some 3], 3⟩ 1 99 (by decide) (by decide)).2 1⟩

/-- Claim C7 (confirmed).  `Reserve(k)` with `k <= Capacity()` changes nothing;
with `k > Capacity()` it leaves the size and all element values unchanged and
establishes `Capacity() >= k` (in fact `= k`). -/
theorem reserve_spec (v : Vec α) (k : Nat) (hwf : v.size ≤ v.capacity) :
    (k ≤ v.capacity → v.Reserve k = v)
    ∧ (v.capacity < k →
        (v.Reserve k).size = v.size
        ∧ (∀ i, i < v.size → (v.Reserve k).elem i = v.elem i)
        ∧ k ≤ (v.Reserve k).capacity) := by
  constructor
  · intro h; unfold Vec.Reserve; rw [if_pos h]
  · intro h
    exact ⟨size_Reserve v k, fun i hi => elem_Reserve_lt v k hwf i hi,
      Nat.le_of_eq (capacity_Reserve_grow v k hwf h).symm⟩

/-- Witness for C7: a one-element vector, reserving 1 (no-op) and 3 (growth). -/
theorem reserve_spec_witness :
    (⟨[some 1], 1⟩ : Vec Nat).Reserve 1 = ⟨[some 1], 1⟩
    ∧ ((⟨[some 1], 1⟩ : Vec Nat).Reserve 3).elem 0 = (⟨[some 1], 1⟩ : Vec Nat).elem 0
    ∧ 3 ≤ ((⟨[some 1], 1⟩ : Vec Nat).Reserve 3).capacity :=
  ⟨(reserve_spec (⟨[some 1], 1⟩ : Vec Nat) 1 (by decide)).1 (by decide),
   ((reserve_spec (⟨[some 1], 1⟩ : Vec Nat) 3 (by decide)).2 (by decide)).2.1 0 (by decide),
   ((reserve_spec (⟨[some 1], 1⟩ : Vec Nat) 3 (by decide)).2 (by decide)).2.2⟩

/-- Claim C8 (confirmed).  Move-assignment is `Swap(rhs)`: afterwards the
target holds exactly what the source previously held and the source holds
exactly what the target previously held — the source is not emptied. -/
theorem move_assign_swaps (a b : Vec α) : Vec.moveAssign a b = (b, a) := rfl

/-- Claim C9 (confirmed).  No shrinking operation releases or shrinks the
buffer: `Resize` to a smaller size, `PopBack`, and `Erase` all leave
`Capacity()` exactly unchanged (each only destroys or shifts slots in place on
the existing buffer). -/
theorem shrink_never_changes_capacity [Inhabited α] (v : Vec α) (newSize pos : Nat)
    (h : newSize < v.size) :
    (v.Resize newSize).capacity = v.capacity
    ∧ (v.PopBack).capacity = v.capacity
    ∧ (v.Erase pos).capacity = v.capacity := by
  refine ⟨?_, length_writeSeg _ _ _ _, capacity_Erase v pos⟩
  unfold Vec.Resize
  rw [if_pos h]
  exact length_writeSeg _ _ _ _

/-- Witness for C9 on the two-element vector `[1, 2]`, shrink-resizing to 1
and erasing at position 0. -/
theorem shrink_never_changes_capacity_witness :
    ((⟨[some 1, some 2], 2⟩ : Vec Nat).Resize 1).capacity
      = (⟨[some 1, some 2], 2⟩ : Vec Nat).capacity
    ∧ ((⟨[some 1, some 2], 2⟩ : Vec Nat).PopBack).capacity
      = (⟨[some 1, some 2], 2⟩ : Vec Nat).capacity
    ∧ ((⟨[some 1, some 2], 2⟩ : Vec Nat).Erase 0).capacity
      = (⟨[some 1, some 2], 2⟩ : Vec Nat).capacity :=
  shrink_never_changes_capacity ⟨[some 1, some 2], 2⟩ 1 0 (by decide)

/-- Claim C10 (confirmed).  Copy-assigning a vector to itself takes the
`this == &rhs` early exit and leaves size, capacity and every element
unchanged. -/
theorem copy_assign_self_id (v : Vec α) : Vec.copyAssign v v true = v := rfl

end AdvVec
